import Mathlib

/-!
Verification of the batch background-removal pipeline implemented in
`src/app/page.tsx`.

The component keeps an ordered list of `ImageItem` records in React state and
drives them one at a time through an external transform.  We embed the data
model and every state update the component performs (each `setItems` call is a
pure function on the item list), and prove or refute the specified properties.

Modelling conventions:
* object-URL handles (`URL.createObjectURL` tokens) are natural numbers;
* binary payloads (`File` contents, `Blob` contents) are `List Nat`;
* the external `removeBackground` call is a parameter `tf : Nat → Outcome`
  giving, per item id, the progress ticks it emits and its settlement
  (a result blob, or a thrown value).
-/

namespace RemoveBg

/-- A JS `File` as the component sees it: a name, a MIME type and contents. -/
structure JsFile where
  name : String
  type : String
  bytes : List Nat
deriving DecidableEq, Repr

/-- The `status` union of `ImageItem`. -/
inductive Status where
  | pending
  | processing
  | done
  | error
deriving DecidableEq, Repr

/-- The `ImageItem` record of `page.tsx`.  `srcUrl` and `resultUrl` are
object-URL handles; `resultBlob` is the transformed payload. -/
structure Item where
  id : Nat
  file : JsFile
  srcUrl : Nat
  resultUrl : Option Nat := none
  resultBlob : Option (List Nat) := none
  progress : Nat
  status : Status
  errorMessage : Option String := none
  keepBackground : Bool := false
deriving DecidableEq, Repr

/-- The progress percentage computed inside the `progress` callback:
`total > 0 ? Math.round((value / total) * 100) : 0`.  For natural inputs,
`Math.round (100 * value / total)` is `⌊(200 * value + total) / (2 * total)⌋`
(round half up). -/
def percent (value total : Nat) : Nat :=
  if 0 < total then (200 * value + total) / (2 * total) else 0

/-- `getBaseName` of `page.tsx`: `name.replace(/\.[^.]+$/, "")`, i.e. drop a
final ".ext" segment whenever the name ends in a dot followed by at least one
non-dot character. -/
def getBaseName (name : String) : String :=
  let r := name.data.reverse
  let ext := r.takeWhile (fun c => c != '.')
  let rest := r.dropWhile (fun c => c != '.')
  match rest with
  | '.' :: restTail => if ext.isEmpty then name else String.mk restTail.reverse
  | _ => name

/-- Model of JS `String.prototype.toLowerCase` (ASCII range), computed on
the character list so it evaluates by kernel reduction. -/
def toLowerStr (s : String) : String :=
  String.mk (s.data.map Char.toLower)

/-- Model of JS `String.prototype.endsWith`, computed on character lists. -/
def endsWithStr (s suffix : String) : Bool :=
  suffix.data.isSuffixOf s.data

/-- The filter predicate of `addFiles`: lowercased MIME type is
`image/jpeg` or `image/jpg`, or the lowercased name ends in `.jpg`/`.jpeg`. -/
def acceptsFile (f : JsFile) : Bool :=
  toLowerStr f.type == "image/jpeg" || toLowerStr f.type == "image/jpg" ||
    endsWithStr (toLowerStr f.name) ".jpg" || endsWithStr (toLowerStr f.name) ".jpeg"

/-- The item literal built inside `addFiles` for an accepted file, given the
fresh id (`crypto.randomUUID()`) and the fresh source handle
(`URL.createObjectURL(file)`). -/
def mkItem (id h : Nat) (f : JsFile) : Item :=
  { id := id
    file := f
    srcUrl := h
    progress := 0
    status := .pending
    keepBackground := false }

/-- `addFiles` of `page.tsx`: filter the incoming files, return the previous
collection unchanged when nothing qualifies, otherwise append one fresh
`pending` item per accepted file.  `nextId`/`nextH` model the fresh-id and
fresh-handle generators. -/
def addFiles (prev : List Item) (files : List JsFile) (nextId nextH : Nat) :
    List Item :=
  let list := files.filter acceptsFile
  if list.isEmpty then prev
  else prev ++ (list.enum.map fun kf => mkItem (nextId + kf.1) (nextH + kf.1) kf.2)

/-- The ZIP-building loop of the Download ZIP handler: in collection order,
an item contributes `(file.name, file bytes)` when `keepBackground` is set,
else `(getBaseName(file.name) ++ ".png", result bytes)` when a result blob is
present, else nothing. -/
def buildArchive : List Item → List (String × List Nat)
  | [] => []
  | item :: rest =>
    if item.keepBackground then
      (item.file.name, item.file.bytes) :: buildArchive rest
    else
      match item.resultBlob with
      | some bytes => (getBaseName item.file.name ++ ".png", bytes) :: buildArchive rest
      | none => buildArchive rest

/-- A value thrown by the transform: either a JS `Error` with a message, or
any other value. -/
inductive Thrown where
  | jsError (msg : String)
  | other
deriving DecidableEq, Repr

/-- The message the catch block records:
`err instanceof Error ? err.message : "Failed to remove background"`. -/
def msgOf : Thrown → String
  | .jsError m => m
  | .other => "Failed to remove background"

/-- Behaviour of one `removeBackground` call: the progress ticks
`(value, total)` it emits, then either a result blob or a thrown value. -/
inductive Outcome where
  | ok (ticks : List (Nat × Nat)) (bytes : List Nat)
  | raise (ticks : List (Nat × Nat)) (thrown : Thrown)
deriving DecidableEq, Repr

/-- The `setItems(prev => prev.map(i => i.id === id ? f i : i))` update shape
used by every state write in the component. -/
def updItem (f : Item → Item) (id : Nat) (items : List Item) : List Item :=
  items.map fun i => if i.id = id then f i else i

/-- Element update of the scheduler's start-of-item write:
`{ ...i, status: "processing", progress: 0 }`. -/
def startFun (i : Item) : Item :=
  { i with status := .processing, progress := 0 }

/-- Element update of one progress tick: `{ ...i, progress: percent }`. -/
def tickFun (vt : Nat × Nat) (i : Item) : Item :=
  { i with progress := percent vt.1 vt.2 }

/-- Element update of the success write:
`{ ...i, resultUrl, resultBlob, progress: 100, status: "done" }`. -/
def successFun (h : Nat) (bytes : List Nat) (i : Item) : Item :=
  { i with
    resultUrl := some h
    resultBlob := some bytes
    progress := 100
    status := .done }

/-- Element update of the failure write:
`{ ...i, status: "error", errorMessage: message }`. -/
def errorFun (msg : String) (i : Item) : Item :=
  { i with status := .error, errorMessage := some msg }

/-- The scheduler's start-of-item state write. -/
def startProcessing (items : List Item) (id : Nat) : List Item :=
  updItem startFun id items

/-- The state writes performed by the progress callback over a list of ticks. -/
def applyTicks (items : List Item) (id : Nat) (ticks : List (Nat × Nat)) :
    List Item :=
  ticks.foldl (fun st vt => updItem (tickFun vt) id st) items

/-- The success state write, with `h` the fresh `resultUrl` handle. -/
def finishSuccess (items : List Item) (id h : Nat) (bytes : List Nat) :
    List Item :=
  updItem (successFun h bytes) id items

/-- The failure state write. -/
def finishError (items : List Item) (id : Nat) (msg : String) : List Item :=
  updItem (errorFun msg) id items

/-- State threaded through a scheduler run: the current collection, the fresh
object-URL counter, and the ids for which the transform has been invoked. -/
structure SchedState where
  items : List Item
  nextHandle : Nat
  invoked : List Nat
deriving DecidableEq, Repr

/-- One iteration of the `for (const item of items)` loop of
`processSequentially`: `item` is the snapshot element; items already `done`
or `processing` (in the snapshot) are skipped, otherwise the item is moved to
`processing`, the transform runs (emitting its ticks), and the item settles
to `done` or `error`. -/
def processItem (tf : Nat → Outcome) (st : SchedState) (item : Item) :
    SchedState :=
  if item.status = .done ∨ item.status = .processing then st
  else
    let items1 := startProcessing st.items item.id
    match tf item.id with
    | .ok ticks bytes =>
      let items2 := applyTicks items1 item.id ticks
      ⟨finishSuccess items2 item.id st.nextHandle bytes, st.nextHandle + 1,
        st.invoked ++ [item.id]⟩
    | .raise ticks thrown =>
      let items2 := applyTicks items1 item.id ticks
      ⟨finishError items2 item.id (msgOf thrown), st.nextHandle,
        st.invoked ++ [item.id]⟩

/-- A full run of `processSequentially`: iterate the snapshot of the
collection captured when the run was invoked, processing each element in
order against the live state. -/
def runAll (tf : Nat → Outcome) (snapshot : List Item) (st : SchedState) :
    SchedState :=
  snapshot.foldl (processItem tf) st

/-! Net effect of one loop iteration.  The three writes a processed item
receives (start, ticks, settlement) compose into a single per-element
function, which the lemmas below make explicit. -/

/-- Progress value left behind by a failing transform: `0` from the start
write if no tick arrived, else the percentage of the last tick. -/
def failProgress (ticks : List (Nat × Nat)) : Nat :=
  ticks.foldl (fun _ vt => percent vt.1 vt.2) 0

/-- The per-element net effect of processing a non-skipped item whose
transform behaves as `o`, with `h` the fresh handle counter. -/
def netFun (o : Outcome) (h : Nat) (i : Item) : Item :=
  match o with
  | .ok _ bytes =>
    { i with
      resultUrl := some h
      resultBlob := some bytes
      progress := 100
      status := .done }
  | .raise ticks thrown =>
    { i with
      status := .error
      progress := failProgress ticks
      errorMessage := some (msgOf thrown) }

/-- Handle-counter advance caused by one processed item. -/
def bumpH (o : Outcome) (h : Nat) : Nat :=
  match o with
  | .ok _ _ => h + 1
  | .raise _ _ => h

/-- Ids the loop skips: snapshot status `done` or `processing`. -/
def skips (i : Item) : Prop :=
  i.status = .done ∨ i.status = .processing

instance (i : Item) : Decidable (skips i) := by
  unfold skips; infer_instance

theorem netFun_id (o : Outcome) (h : Nat) (i : Item) :
    (netFun o h i).id = i.id := by
  cases o <;> rfl

theorem netFun_status (o : Outcome) (h : Nat) (i : Item) :
    (netFun o h i).status = .done ∨ (netFun o h i).status = .error := by
  cases o
  · exact Or.inl rfl
  · exact Or.inr rfl

theorem startFun_id (i : Item) : (startFun i).id = i.id := rfl

theorem updItem_comp (f g : Item → Item) (hg : ∀ i, (g i).id = i.id)
    (id : Nat) (items : List Item) :
    updItem f id (updItem g id items) = updItem (fun i => f (g i)) id items := by
  unfold updItem
  rw [List.map_map]
  apply List.map_congr_left
  intro i _
  by_cases h : i.id = id
  · simp [h, hg]
  · simp [h]

theorem updItem_id_fun (id : Nat) (items : List Item) :
    updItem (fun i => i) id items = items := by
  unfold updItem
  simp

/-- Folding `tickFun` just overwrites the `progress` field with the fold of
the percentages. -/
theorem ticksFold_eq (ticks : List (Nat × Nat)) : ∀ i : Item,
    List.foldl (fun j vt => tickFun vt j) i ticks =
      { i with progress := List.foldl (fun _p vt => percent vt.1 vt.2) i.progress ticks } := by
  induction ticks with
  | nil => intro i; rfl
  | cons vt ts ih =>
    intro i
    rw [List.foldl_cons, List.foldl_cons, ih]
    rfl

theorem ticksFold_id (ticks : List (Nat × Nat)) (i : Item) :
    (List.foldl (fun j vt => tickFun vt j) i ticks).id = i.id := by
  rw [ticksFold_eq]

theorem applyTicks_eq (ticks : List (Nat × Nat)) : ∀ (items : List Item) (id : Nat),
    applyTicks items id ticks =
      updItem (fun i => List.foldl (fun j vt => tickFun vt j) i ticks) id items := by
  induction ticks with
  | nil =>
    intro items id
    unfold applyTicks
    rw [List.foldl_nil]
    exact (updItem_id_fun id items).symm
  | cons vt ts ih =>
    intro items id
    unfold applyTicks
    rw [List.foldl_cons]
    have := ih (updItem (tickFun vt) id items) id
    unfold applyTicks at this
    rw [this, updItem_comp (fun i => List.foldl (fun j vt => tickFun vt j) i ts)
      (tickFun vt) (fun i => rfl)]
    rfl

theorem success_net (h : Nat) (bytes : List Nat) (ticks : List (Nat × Nat)) (i : Item) :
    successFun h bytes (List.foldl (fun j vt => tickFun vt j) (startFun i) ticks) =
      netFun (.ok ticks bytes) h i := by
  rw [ticksFold_eq]
  cases i
  rfl

theorem error_net (thrown : Thrown) (ticks : List (Nat × Nat)) (h : Nat) (i : Item) :
    errorFun (msgOf thrown) (List.foldl (fun j vt => tickFun vt j) (startFun i) ticks) =
      netFun (.raise ticks thrown) h i := by
  rw [ticksFold_eq]
  cases i
  rfl

/-- Characterization of one loop iteration: skipped items leave the state
unchanged; a processed item applies its net per-element update (by id),
bumps the handle counter on success, and records the invocation. -/
theorem processItem_eq (tf : Nat → Outcome) (st : SchedState) (item : Item) :
    processItem tf st item =
      if skips item then st
      else
        ⟨updItem (netFun (tf item.id) st.nextHandle) item.id st.items,
          bumpH (tf item.id) st.nextHandle, st.invoked ++ [item.id]⟩ := by
  unfold processItem skips
  by_cases hs : item.status = .done ∨ item.status = .processing
  · rw [if_pos hs, if_pos hs]
  · rw [if_neg hs, if_neg hs]
    cases htf : tf item.id with
    | ok ticks bytes =>
      simp only [bumpH]
      congr 1
      unfold finishSuccess startProcessing
      rw [applyTicks_eq, updItem_comp _ _ startFun_id,
        updItem_comp _ _ (fun i => ticksFold_id ticks (startFun i))]
      apply List.map_congr_left
      intro i _
      by_cases h : i.id = item.id
      · rw [if_pos h, if_pos h]
        exact success_net st.nextHandle bytes ticks i
      · rw [if_neg h, if_neg h]
    | raise ticks thrown =>
      simp only [bumpH]
      congr 1
      unfold finishError startProcessing
      rw [applyTicks_eq, updItem_comp _ _ startFun_id,
        updItem_comp _ _ (fun i => ticksFold_id ticks (startFun i))]
      apply List.map_congr_left
      intro i _
      by_cases h : i.id = item.id
      · rw [if_pos h, if_pos h]
        exact error_net thrown ticks st.nextHandle i
      · rw [if_neg h, if_neg h]

/-! Run-level lemmas: how `runAll` acts on each position of the live
collection. -/

/-- An item that has settled: status `done` or `error`. -/
def settled (i : Item) : Prop :=
  i.status = .done ∨ i.status = .error

/-- Position `k` of the list holds a settled item (vacuously true out of
range). -/
def settledAt (xs : List Item) (k : Nat) : Prop :=
  ∀ j : Item, xs[k]? = some j → settled j

theorem runAll_nil (tf : Nat → Outcome) (st : SchedState) :
    runAll tf [] st = st := rfl

theorem runAll_cons (tf : Nat → Outcome) (s : Item) (rest : List Item)
    (st : SchedState) :
    runAll tf (s :: rest) st = runAll tf rest (processItem tf st s) := rfl

theorem updItem_getElem (f : Item → Item) (id : Nat) (items : List Item)
    (k : Nat) :
    (updItem f id items)[k]? =
      (items[k]?).map fun i => if i.id = id then f i else i := by
  unfold updItem
  exact List.getElem?_map _ _ _

theorem runAll_length (tf : Nat → Outcome) : ∀ (snap : List Item) (st : SchedState),
    (runAll tf snap st).items.length = st.items.length := by
  intro snap
  induction snap with
  | nil => intro st; rfl
  | cons s rest ih =>
    intro st
    rw [runAll_cons, ih, processItem_eq]
    by_cases hs : skips s
    · rw [if_pos hs]
    · rw [if_neg hs]
      exact List.length_map _ _

/-- Once a position holds a settled item, the rest of the run keeps it
settled (every later write either leaves the element alone or settles it). -/
theorem runAll_settled_mono (tf : Nat → Outcome) :
    ∀ (snap : List Item) (st : SchedState) (k : Nat),
      settledAt st.items k → settledAt (runAll tf snap st).items k := by
  intro snap
  induction snap with
  | nil => intro st k hk; exact hk
  | cons s rest ih =>
    intro st k hk
    rw [runAll_cons]
    apply ih
    rw [processItem_eq]
    by_cases hs : skips s
    · rw [if_pos hs]; exact hk
    · rw [if_neg hs]
      intro j hj
      rw [updItem_getElem] at hj
      cases hst : st.items[k]? with
      | none => rw [hst] at hj; exact absurd hj (by simp)
      | some j0 =>
        rw [hst] at hj
        simp only [Option.map_some', Option.some_inj] at hj
        subst hj
        by_cases hid : j0.id = s.id
        · rw [if_pos hid]
          exact netFun_status (tf s.id) st.nextHandle j0
        · rw [if_neg hid]
          exact hk j0 hst

/-- A position whose item has an id matched by some non-skipped snapshot
element ends the run settled. -/
theorem runAll_settles_matched (tf : Nat → Outcome) :
    ∀ (snap : List Item) (st : SchedState) (k : Nat) (j : Item),
      st.items[k]? = some j →
      (∃ s ∈ snap, s.id = j.id ∧ ¬ skips s) →
      settledAt (runAll tf snap st).items k := by
  intro snap
  induction snap with
  | nil =>
    intro st k j _ hex
    rcases hex with ⟨s, hs, _⟩
    exact absurd hs (List.not_mem_nil s)
  | cons s rest ih =>
    intro st k j hj hex
    rw [runAll_cons, processItem_eq]
    by_cases hs : skips s
    · rw [if_pos hs]
      rcases hex with ⟨w, hw, hwid, hwns⟩
      rcases List.mem_cons.mp hw with hws | hwrest
      · exact absurd (hws ▸ hwns) (fun hns => hns hs)
      · exact ih st k j hj ⟨w, hwrest, hwid, hwns⟩
    · rw [if_neg hs]
      by_cases hid : j.id = s.id
      · apply runAll_settled_mono
        intro j2 hj2
        rw [updItem_getElem, hj] at hj2
        simp only [Option.map_some', Option.some_inj] at hj2
        rw [if_pos hid] at hj2
        subst hj2
        exact netFun_status (tf s.id) st.nextHandle j
      · have hj2 : (updItem (netFun (tf s.id) st.nextHandle) s.id st.items)[k]? = some j := by
          rw [updItem_getElem, hj]
          simp only [Option.map_some']
          rw [if_neg hid]
        rcases hex with ⟨w, hw, hwid, hwns⟩
        rcases List.mem_cons.mp hw with hws | hwrest
        · exact absurd (hws ▸ hwid).symm hid
        · exact ih _ k j hj2 ⟨w, hwrest, hwid, hwns⟩

/-- Every position either keeps its initial item or ends settled. -/
theorem runAll_unchanged_or_settled (tf : Nat → Outcome) :
    ∀ (snap : List Item) (st : SchedState) (k : Nat) (j : Item),
      st.items[k]? = some j →
      (runAll tf snap st).items[k]? = some j ∨
        settledAt (runAll tf snap st).items k := by
  intro snap
  induction snap with
  | nil => intro st k j hj; exact Or.inl hj
  | cons s rest ih =>
    intro st k j hj
    rw [runAll_cons, processItem_eq]
    by_cases hs : skips s
    · rw [if_pos hs]; exact ih st k j hj
    · rw [if_neg hs]
      by_cases hid : j.id = s.id
      · right
        apply runAll_settled_mono
        intro j2 hj2
        rw [updItem_getElem, hj] at hj2
        simp only [Option.map_some', Option.some_inj] at hj2
        rw [if_pos hid] at hj2
        subst hj2
        exact netFun_status (tf s.id) st.nextHandle j
      · have hj2 : (updItem (netFun (tf s.id) st.nextHandle) s.id st.items)[k]? = some j := by
          rw [updItem_getElem, hj]
          simp only [Option.map_some']
          rw [if_neg hid]
        exact ih _ k j hj2

/-- A position whose item id does not occur in the snapshot is left exactly
as it was: the run never touches items outside its snapshot. -/
theorem runAll_untouched (tf : Nat → Outcome) :
    ∀ (snap : List Item) (st : SchedState) (k : Nat) (j : Item),
      st.items[k]? = some j →
      j.id ∉ snap.map Item.id →
      (runAll tf snap st).items[k]? = some j := by
  intro snap
  induction snap with
  | nil => intro st k j hj _; exact hj
  | cons s rest ih =>
    intro st k j hj hnot
    rw [List.map_cons, List.mem_cons] at hnot
    push_neg at hnot
    rw [runAll_cons, processItem_eq]
    by_cases hs : skips s
    · rw [if_pos hs]; exact ih st k j hj hnot.2
    · rw [if_neg hs]
      have hj2 : (updItem (netFun (tf s.id) st.nextHandle) s.id st.items)[k]? = some j := by
        rw [updItem_getElem, hj]
        simp only [Option.map_some']
        rw [if_neg hnot.1]
      exact ih _ k j hj2 hnot.2

/-- The snapshot ids the loop will invoke the transform for: snapshot
elements not already `done`/`processing`, in order. -/
def invokedIds : List Item → List Nat
  | [] => []
  | s :: rest => if skips s then invokedIds rest else s.id :: invokedIds rest

theorem invokedIds_cons (s : Item) (rest : List Item) :
    invokedIds (s :: rest) =
      if skips s then invokedIds rest else s.id :: invokedIds rest := rfl

/-- The run appends exactly the non-skipped snapshot ids to the invocation
log. -/
theorem runAll_invoked (tf : Nat → Outcome) :
    ∀ (snap : List Item) (st : SchedState),
      (runAll tf snap st).invoked = st.invoked ++ invokedIds snap := by
  intro snap
  induction snap with
  | nil => intro st; simp [runAll_nil, invokedIds]
  | cons s rest ih =>
    intro st
    rw [runAll_cons, ih, processItem_eq, invokedIds_cons]
    by_cases hs : skips s
    · rw [if_pos hs, if_pos hs]
    · rw [if_neg hs, if_neg hs]
      simp

/-- A run over a snapshot of all-`done` items changes nothing at all. -/
theorem runAll_skips_done (tf : Nat → Outcome) :
    ∀ (snap : List Item) (st : SchedState),
      (∀ i ∈ snap, i.status = Status.done) → runAll tf snap st = st := by
  intro snap
  induction snap with
  | nil => intro st _; rfl
  | cons s rest ih =>
    intro st hd
    rw [runAll_cons, processItem_eq,
      if_pos (show skips s from Or.inl (hd s (List.mem_cons_self s rest)))]
    exact ih st fun i hi => hd i (List.mem_cons_of_mem s hi)

/-! Concrete sample data used by witnesses and counterexamples. -/

def fileA : JsFile := { name := "a.jpg", type := "image/jpeg", bytes := [1, 2] }

def fileB : JsFile := { name := "b.jpg", type := "image/jpeg", bytes := [3] }

/-- A freshly added pending item. -/
def itemA : Item := mkItem 0 10 fileA

/-- A second freshly added pending item. -/
def itemB : Item := mkItem 1 11 fileB

/-- An item that already finished. -/
def itemDone : Item :=
  { mkItem 2 12 fileA with
    status := Status.done
    resultUrl := some 13
    resultBlob := some [9]
    progress := 100 }

/-- A transform that always succeeds after one progress tick. -/
def tfOk : Nat → Outcome := fun _ => .ok [(1, 2)] [7]

/-- The settled form of `itemA` under `tfOk` with handle counter 0. -/
def itemADone : Item :=
  { itemA with
    resultUrl := some 0
    resultBlob := some [7]
    progress := 100
    status := Status.done }

/-- Claim C7 (confirmed): after a run of the scheduler settles, every item in
the collection is `done` or `error`; none is left `pending` or `processing`.
The hypothesis that no item is `processing` at invocation is the scheduler's
re-entrancy invariant: `processSequentially` refuses to start while a run is
in flight, and `processing` items exist only during a run. -/
theorem runAll_all_settled (tf : Nat → Outcome) (coll : List Item) (nh : Nat)
    (hp : ∀ i ∈ coll, i.status ≠ Status.processing) :
    ∀ i ∈ (runAll tf coll ⟨coll, nh, []⟩).items,
      i.status = Status.done ∨ i.status = Status.error := by
  intro i hi
  rcases List.mem_iff_getElem?.mp hi with ⟨k, hk⟩
  have hklen : k < (runAll tf coll ⟨coll, nh, []⟩).items.length := by
    by_contra hgt
    rw [List.getElem?_eq_none (Nat.le_of_not_lt hgt)] at hk
    exact absurd hk (by simp)
  have hlen : (runAll tf coll ⟨coll, nh, []⟩).items.length = coll.length :=
    runAll_length tf coll ⟨coll, nh, []⟩
  have hkc : k < coll.length := hlen ▸ hklen
  have hj : coll[k]? = some coll[k] := List.getElem?_eq_getElem hkc
  have hjm : coll[k] ∈ coll := List.getElem_mem hkc
  cases hstat : (coll[k]).status with
  | pending =>
    have hns : ¬ skips coll[k] := by
      unfold skips
      rw [hstat]
      rintro (h | h) <;> exact absurd h (by simp)
    have := runAll_settles_matched tf coll ⟨coll, nh, []⟩ k coll[k] hj
      ⟨coll[k], hjm, rfl, hns⟩
    exact this i hk
  | processing => exact absurd hstat (hp _ hjm)
  | done =>
    rcases runAll_unchanged_or_settled tf coll ⟨coll, nh, []⟩ k coll[k] hj with heq | hsett
    · rw [heq, Option.some_inj] at hk
      rw [← hk]
      exact Or.inl hstat
    · exact hsett i hk
  | error =>
    have hns : ¬ skips coll[k] := by
      unfold skips
      rw [hstat]
      rintro (h | h) <;> exact absurd h (by simp)
    have := runAll_settles_matched tf coll ⟨coll, nh, []⟩ k coll[k] hj
      ⟨coll[k], hjm, rfl, hns⟩
    exact this i hk

/-- Witness for C7: a singleton pending collection ends with its (settled)
item `done` or `error`. -/
theorem runAll_all_settled_witness :
    itemADone.status = Status.done ∨ itemADone.status = Status.error :=
  runAll_all_settled tfOk [itemA] 0 (by decide) itemADone (by decide)

/-- Claim C9 (confirmed): invoking the scheduler on a collection in which
every item is `done` is a no-op: the loop skips every item, so no transform
is invoked (the invocation log stays empty), and no item's status, progress,
result or error information changes (the state is returned unchanged). -/
theorem runAll_done_noop (tf : Nat → Outcome) (coll : List Item) (nh : Nat)
    (hd : ∀ i ∈ coll, i.status = Status.done) :
    runAll tf coll ⟨coll, nh, []⟩ = ⟨coll, nh, []⟩ :=
  runAll_skips_done tf coll ⟨coll, nh, []⟩ hd

/-- Witness for C9: running over an all-`done` singleton changes nothing. -/
theorem runAll_done_noop_witness :
    runAll tfOk [itemDone] ⟨[itemDone], 7, []⟩ = ⟨[itemDone], 7, []⟩ :=
  runAll_done_noop tfOk [itemDone] 7 (by decide)

theorem updItem_three (f : Item → Item) (x y z : Item) (id : Nat) :
    updItem f id [x, y, z] =
      [if x.id = id then f x else x, if y.id = id then f y else y,
        if z.id = id then f z else z] := rfl

/-- Claim C6 (confirmed): when the transform fails for the middle item `b`
but succeeds for `a` and `d` around it, the run still settles all three:
`a` ends `done`, `b` ends `error` carrying the recorded message (non-empty
whenever the thrown value carries a non-empty message — `msgOf` substitutes
a fixed non-empty text for non-`Error` throws), `d` ends `done`, and the
transform was invoked for all three in order: `b`'s failure never aborts the
batch. -/
theorem runAll_partial_failure (tf : Nat → Outcome) (a b d : Item) (nh : Nat)
    (ticksA ticksB ticksD : List (Nat × Nat)) (bytesA bytesD : List Nat)
    (tB : Thrown)
    (hab : a.id ≠ b.id) (had : a.id ≠ d.id) (hbd : b.id ≠ d.id)
    (ha : a.status = Status.pending) (hb : b.status = Status.pending)
    (hd : d.status = Status.pending)
    (hta : tf a.id = Outcome.ok ticksA bytesA)
    (htb : tf b.id = Outcome.raise ticksB tB)
    (htd : tf d.id = Outcome.ok ticksD bytesD)
    (hm : msgOf tB ≠ "") :
    (runAll tf [a, b, d] ⟨[a, b, d], nh, []⟩).items.map Item.status
        = [Status.done, Status.error, Status.done]
      ∧ ((runAll tf [a, b, d] ⟨[a, b, d], nh, []⟩).items.map Item.errorMessage)[1]?
        = some (some (msgOf tB))
      ∧ msgOf tB ≠ ""
      ∧ (runAll tf [a, b, d] ⟨[a, b, d], nh, []⟩).invoked = [a.id, b.id, d.id] := by
  have hnsa : ¬ skips a := by
    unfold skips; rw [ha]; rintro (h | h) <;> exact absurd h (by simp)
  have hnsb : ¬ skips b := by
    unfold skips; rw [hb]; rintro (h | h) <;> exact absurd h (by simp)
  have hnsd : ¬ skips d := by
    unfold skips; rw [hd]; rintro (h | h) <;> exact absurd h (by simp)
  have e1 : processItem tf ⟨[a, b, d], nh, []⟩ a =
      ⟨[netFun (Outcome.ok ticksA bytesA) nh a, b, d], nh + 1, [a.id]⟩ := by
    rw [processItem_eq, if_neg hnsa, hta]
    congr 1
    rw [updItem_three, if_pos rfl, if_neg (Ne.symm hab), if_neg (Ne.symm had)]
  have e2 : processItem tf
      ⟨[netFun (Outcome.ok ticksA bytesA) nh a, b, d], nh + 1, [a.id]⟩ b =
      ⟨[netFun (Outcome.ok ticksA bytesA) nh a,
          netFun (Outcome.raise ticksB tB) (nh + 1) b, d], nh + 1,
        [a.id, b.id]⟩ := by
    rw [processItem_eq, if_neg hnsb, htb]
    congr 1
    rw [updItem_three, if_neg (by rw [netFun_id]; exact hab), if_pos rfl,
      if_neg (Ne.symm hbd)]
  have e3 : processItem tf
      ⟨[netFun (Outcome.ok ticksA bytesA) nh a,
          netFun (Outcome.raise ticksB tB) (nh + 1) b, d], nh + 1,
        [a.id, b.id]⟩ d =
      ⟨[netFun (Outcome.ok ticksA bytesA) nh a,
          netFun (Outcome.raise ticksB tB) (nh + 1) b,
          netFun (Outcome.ok ticksD bytesD) (nh + 1) d], nh + 2,
        [a.id, b.id, d.id]⟩ := by
    rw [processItem_eq, if_neg hnsd, htd]
    congr 1
    rw [updItem_three, if_neg (by rw [netFun_id]; exact had),
      if_neg (by rw [netFun_id]; exact hbd), if_pos rfl]
  have efin : runAll tf [a, b, d] ⟨[a, b, d], nh, []⟩ =
      ⟨[netFun (Outcome.ok ticksA bytesA) nh a,
          netFun (Outcome.raise ticksB tB) (nh + 1) b,
          netFun (Outcome.ok ticksD bytesD) (nh + 1) d], nh + 2,
        [a.id, b.id, d.id]⟩ := by
    show List.foldl (processItem tf) ⟨[a, b, d], nh, []⟩ [a, b, d] = _
    rw [List.foldl_cons, e1, List.foldl_cons, e2, List.foldl_cons, e3,
      List.foldl_nil]
  rw [efin]
  exact ⟨rfl, rfl, hm, rfl⟩

/-- A transform that fails (with a JS `Error`) for item id 1 and succeeds
for every other id. -/
def tfMix : Nat → Outcome :=
  fun n => if n = 1 then .raise [] (.jsError "boom") else .ok [] [7]

/-- A third freshly added pending item. -/
def itemC : Item := mkItem 2 12 fileA

/-- Witness for C6: a concrete pending a, b, c batch where b's transform
throws settles to done, error (with the thrown message recorded), done. -/
theorem runAll_partial_failure_witness :
    (runAll tfMix [itemA, itemB, itemC] ⟨[itemA, itemB, itemC], 0, []⟩).items.map Item.status
        = [Status.done, Status.error, Status.done]
      ∧ ((runAll tfMix [itemA, itemB, itemC] ⟨[itemA, itemB, itemC], 0, []⟩).items.map Item.errorMessage)[1]?
        = some (some (msgOf (.jsError "boom")))
      ∧ msgOf (.jsError "boom") ≠ ""
      ∧ (runAll tfMix [itemA, itemB, itemC] ⟨[itemA, itemB, itemC], 0, []⟩).invoked
        = [itemA.id, itemB.id, itemC.id] :=
  runAll_partial_failure tfMix itemA itemB itemC 0 [] [] [] [7] [7]
    (.jsError "boom") (by decide) (by decide) (by decide) (by decide)
    (by decide) (by decide) (by decide) (by decide) (by decide) (by decide)

/-- Counterexample for C4: with the collection `[itemA, itemB]` (itemB was
appended right after the run captured its snapshot `[itemA]`), the run
settles with itemB still `pending` and only itemA's transform invoked — the
loop iterates the snapshot, not the live collection, so the appended item is
not picked up by the in-flight run even though it is pending and the run has
not yet passed its position. -/
theorem run_misses_appended_item_cex :
    (runAll tfOk [itemA] ⟨[itemA, itemB], 100, []⟩).items.map Item.status
        = [Status.done, Status.pending]
      ∧ (runAll tfOk [itemA] ⟨[itemA, itemB], 100, []⟩).invoked = [itemA.id] := by
  decide

/-- Claim C4 (corrected): `processSequentially` iterates the snapshot of the
collection captured when the run was invoked (the `items` closure value),
not the live collection state.  Any collection position holding an item
whose id is not in that snapshot — e.g. one appended while the run is in
flight — is left exactly as it was, and the run invokes the transform for
precisely the non-skipped snapshot elements. -/
theorem runAll_snapshot_scan (tf : Nat → Outcome) (snap cur : List Item)
    (nh k : Nat) (j : Item) (hj : cur[k]? = some j)
    (hnot : j.id ∉ snap.map Item.id) :
    (runAll tf snap ⟨cur, nh, []⟩).items[k]? = some j
    ∧ (runAll tf snap ⟨cur, nh, []⟩).invoked = invokedIds snap := by
  constructor
  · exact runAll_untouched tf snap ⟨cur, nh, []⟩ k j hj hnot
  · rw [runAll_invoked]
    rfl

/-- Witness for C4's amended statement: the appended `itemB` is untouched by
the snapshot run. -/
theorem runAll_snapshot_scan_witness :
    (runAll tfOk [itemA] ⟨[itemA, itemB], 100, []⟩).items[1]? = some itemB
    ∧ (runAll tfOk [itemA] ⟨[itemA, itemB], 100, []⟩).invoked = invokedIds [itemA] :=
  runAll_snapshot_scan tfOk [itemA] [itemA, itemB] 100 1 itemB (by decide)
    (by decide)

/-- An item that failed on a previous run. -/
def errItem : Item :=
  { mkItem 3 14 fileA with status := Status.error, errorMessage := some "boom" }

/-- Counterexample for C3: when the scheduler picks an `error` item up again,
the `processing` transition write keeps the old `errorMessage` (the spread
`{ ...i, status: "processing", progress: 0 }` copies it), so the prior error
information is still present when the retry begins — and it even survives a
successful retry into the `done` state. -/
theorem retry_keeps_prior_error_cex :
    (startProcessing [errItem] errItem.id).map Item.errorMessage = [some "boom"]
      ∧ (startProcessing [errItem] errItem.id).map Item.status = [Status.processing]
      ∧ ((runAll tfOk [errItem] ⟨[errItem], 20, []⟩).items.map
          fun i => (i.status, i.errorMessage)) = [(Status.done, some "boom")] := by
  decide

theorem updItem_map_errorMessage (f : Item → Item)
    (hf : ∀ i : Item, (f i).errorMessage = i.errorMessage) (id : Nat)
    (items : List Item) :
    (updItem f id items).map Item.errorMessage = items.map Item.errorMessage := by
  unfold updItem
  rw [List.map_map]
  apply List.map_congr_left
  intro i _
  simp only [Function.comp_apply]
  by_cases hid : i.id = id
  · rw [if_pos hid, hf]
  · rw [if_neg hid]

/-- Claim C3 (corrected, amended form): the `error → processing` re-run
transition resets `progress` and sets `processing` but does not clear
`errorMessage`; the success write also preserves it.  The old error
information is only ever overwritten by the failure write of a new error. -/
theorem retry_error_info_retained (items : List Item) (id h : Nat)
    (bytes : List Nat) (msg : String) :
    (startProcessing items id).map Item.errorMessage = items.map Item.errorMessage
    ∧ (finishSuccess items id h bytes).map Item.errorMessage
        = items.map Item.errorMessage
    ∧ ∀ i : Item, (errorFun msg i).errorMessage = some msg :=
  ⟨updItem_map_errorMessage startFun (fun _ => rfl) id items,
    updItem_map_errorMessage (successFun h bytes) (fun _ => rfl) id items,
    fun _ => rfl⟩

/-- Counterexample for C1: a progress tick reporting `current = 2`,
`total = 1` stores progress 200 on the item — the computation
`Math.round((value / total) * 100)` applies no clamping, so the stored
percentage leaves `[0,100]` as soon as the adapter reports
`current > total`. -/
theorem progress_not_clamped_cex :
    (tickFun (2, 1) itemA).progress = 200
      ∧ ¬ (tickFun (2, 1) itemA).progress ≤ 100 := by
  decide

/-- Claim C1 (corrected, amended form): the stored progress is exactly
`percent value total`, which lies in `[0,100]` whenever the adapter reports
`current ≤ total` (and is the fixed placeholder 0 when `total = 0`), but it
is not clamped: `current > total` can push it above 100. -/
theorem progress_clamped_when_le (value total : Nat) (i : Item)
    (hv : value ≤ total) :
    (tickFun (value, total) i).progress = percent value total
    ∧ percent value total ≤ 100 := by
  refine ⟨rfl, ?_⟩
  unfold percent
  by_cases ht : 0 < total
  · rw [if_pos ht]
    have h2 : 0 < 2 * total := by omega
    have hlt : 200 * value + total < 101 * (2 * total) := by omega
    exact Nat.lt_succ_iff.mp ((Nat.div_lt_iff_lt_mul h2).mpr hlt)
  · rw [if_neg ht]
    omega

/-- Witness for C1's amended statement at `value = 1`, `total = 2`. -/
theorem progress_clamped_when_le_witness :
    (tickFun (1, 2) itemA).progress = percent 1 2 ∧ percent 1 2 ≤ 100 :=
  progress_clamped_when_le 1 2 itemA (by decide)

/-- Claim C8 (confirmed): a progress tick with `total = 0` takes the guarded
branch of `total > 0 ? ... : 0` — no division happens and the stored
progress is the fixed placeholder 0, for every reported `value`. -/
theorem progress_total_zero (value : Nat) (i : Item) :
    (tickFun (value, 0) i).progress = 0 ∧ percent value 0 = 0 := by
  constructor
  · show percent value 0 = 0
    unfold percent
    rw [if_neg (Nat.lt_irrefl 0)]
  · unfold percent
    rw [if_neg (Nat.lt_irrefl 0)]

/-- Claim C5 (confirmed): the archive contains, in collection order, exactly
`(sourceName, sourceBytes)` for `keepOriginal` items, else
`(deriveOutputName sourceName, resultBytes)` when a result is present, else
nothing (silent skip); and the derived output name for `"cat.jpg"` with
output extension `"png"` is `"cat.png"`. -/
theorem buildArchive_spec (items : List Item) :
    buildArchive items =
      items.filterMap (fun item =>
        if item.keepBackground then some (item.file.name, item.file.bytes)
        else item.resultBlob.map fun bytes =>
          (getBaseName item.file.name ++ ".png", bytes))
    ∧ getBaseName "cat.jpg" ++ ".png" = "cat.png" := by
  refine ⟨?_, by decide⟩
  induction items with
  | nil => rfl
  | cons item rest ih =>
    rw [List.filterMap_cons]
    by_cases hk : item.keepBackground
    · simp [buildArchive, hk, ih]
    · cases hrb : item.resultBlob with
      | some bytes => simp [buildArchive, hk, hrb, ih]
      | none => simp [buildArchive, hk, hrb, ih]

/-- Claim C10 (confirmed): `addFiles` appends exactly one fresh item per
file passing the JPEG filter (in input order, with fresh ids and source
handles), every created item starts `pending` with progress 0 and
`keepOriginal` false wrapping its file, non-qualifying files contribute
nothing, and when no file qualifies the collection is returned unchanged
(the append of the empty list). -/
theorem addFiles_spec (prev : List Item) (files : List JsFile)
    (nextId nextH : Nat) :
    addFiles prev files nextId nextH
      = prev ++ ((files.filter acceptsFile).enum.map fun kf =>
          mkItem (nextId + kf.1) (nextH + kf.1) kf.2)
    ∧ (∀ f : JsFile, acceptsFile f =
        (toLowerStr f.type == "image/jpeg" || toLowerStr f.type == "image/jpg" ||
          endsWithStr (toLowerStr f.name) ".jpg"
            || endsWithStr (toLowerStr f.name) ".jpeg"))
    ∧ (∀ id h : Nat, ∀ f : JsFile,
        (mkItem id h f).status = Status.pending
          ∧ (mkItem id h f).progress = 0
          ∧ (mkItem id h f).keepBackground = false
          ∧ (mkItem id h f).file = f) := by
  refine ⟨?_, fun f => rfl, fun id h f => ⟨rfl, rfl, rfl, rfl⟩⟩
  unfold addFiles
  by_cases he : (files.filter acceptsFile).isEmpty
  · rw [if_pos he]
    rw [List.isEmpty_iff] at he
    rw [he]
    simp
  · rw [if_neg he]

/-! Handle lifecycle (claim C2).  `page.tsx` registers
`useEffect(() => () => { revoke all object URLs of items }, [items])`:
under React's effect semantics the cleanup closure of the previous commit
runs on every change of `items`, not only on unmount.  We model the
acquire/release event trace of the spec's create → process → clear cycle
for a single successfully processed JPEG. -/

/-- An object-URL lifecycle event. -/
inductive Ev where
  | acquire (h : Nat)
  | release (h : Nat)
deriving DecidableEq, Repr

/-- The revoke loop shared verbatim by `clearAll` and the cleanup effect:
for each item, revoke `srcUrl`, then `resultUrl` when present. -/
def releaseHandles : List Item → List Ev
  | [] => []
  | i :: rest =>
    Ev.release i.srcUrl ::
      (match i.resultUrl with
       | some h => Ev.release h :: releaseHandles rest
       | none => releaseHandles rest)

/-- Number of acquisitions of handle `h` in a trace. -/
def countAcquire (h : Nat) (evs : List Ev) : Nat :=
  evs.countP fun e => decide (e = Ev.acquire h)

/-- Number of releases of handle `h` in a trace. -/
def countRelease (h : Nat) (evs : List Ev) : Nat :=
  evs.countP fun e => decide (e = Ev.release h)

/-- Total number of acquisitions in a trace. -/
def totalAcquires (evs : List Ev) : Nat :=
  evs.countP fun e => match e with | Ev.acquire _ => true | Ev.release _ => false

/-- Total number of releases in a trace. -/
def totalReleases (evs : List Ev) : Nat :=
  evs.countP fun e => match e with | Ev.acquire _ => false | Ev.release _ => true

/-- The one input file of the lifecycle scenario. -/
def fileCat : JsFile := { name := "cat.jpg", type := "image/jpeg", bytes := [9, 9] }

/-- Collection after `addFiles` (handle 1 = the item's `srcUrl`). -/
def state1 : List Item := addFiles [] [fileCat] 0 1

/-- Collection after the scheduler's `processing` write. -/
def state2 : List Item := startProcessing state1 0

/-- Collection after the success write (handle 2 = the `resultUrl`). -/
def state3 : List Item := finishSuccess (applyTicks state2 0 []) 0 2 [7]

/-- Event trace of the create → process → clear lifecycle: `addFiles`
acquires handle 1; the `items` change `state1 → state2` fires the previous
cleanup over `state1`; the success path acquires handle 2 and its write
(`state2 → state3`) fires the cleanup over `state2`; `clearAll` explicitly
revokes over `state3` and its `setItems([])` fires the cleanup over
`state3` once more. -/
def lifecycleEvents : List Ev :=
  Ev.acquire 1 :: (releaseHandles state1
    ++ (Ev.acquire 2 :: (releaseHandles state2
    ++ (releaseHandles state3 ++ releaseHandles state3))))

/-- Claim C2 (refuted — code bug): over the one-item create → process →
clear lifecycle the source handle is acquired once but released four times
and the result handle is acquired once but released twice; in total 2
acquires against 6 releases, so releases do not equal acquires and handles
are released more than once.  The `[items]`-dependency cleanup effect
re-runs on every collection change, revoking handles of items still live,
on top of `clearAll`'s own revocations. -/
theorem lifecycle_release_counts :
    countAcquire 1 lifecycleEvents = 1
      ∧ countRelease 1 lifecycleEvents = 4
      ∧ countAcquire 2 lifecycleEvents = 1
      ∧ countRelease 2 lifecycleEvents = 2
      ∧ totalAcquires lifecycleEvents = 2
      ∧ totalReleases lifecycleEvents = 6 := by
  decide

end RemoveBg
